import Mathlib

/-!
Shallow embedding of the three maintenance scripts of the
rapid-agent-development repository:

* `skills/adk_developer/scripts/update_skill.py`
* `skills/a2ui_developer/scripts/update_skill.py`
* `skills/agent_engine_terraform_deployer/scripts/prepare_agent.py`

File contents are modelled as lists of characters (`Str`), the filesystem
and external git commands as explicit oracle records, and each script as a
pure function over those.  Theorems at the end of the file settle the
claims of the specification against these definitions.
-/

/-- A Python string / file content: a list of characters. -/
abbrev Str := List Char

/-- Whitespace as recognised by Python's `str.strip()` (ASCII range). -/
def pySpace (c : Char) : Bool :=
  (c == ' ') || (c == '\t') || (c == '\n') || (c == '\r') ||
  (c == (Char.ofNat 11)) || (c == (Char.ofNat 12))

/-- Drop leading whitespace. -/
def stripLeft : Str → Str
  | [] => []
  | c :: rest => if pySpace c then stripLeft rest else c :: rest

/-- Python `str.strip()`: drop leading and trailing whitespace. -/
def strip (s : Str) : Str :=
  (stripLeft ((stripLeft s).reverse)).reverse

/-- Split a text on newline characters, as iterating over the lines of a
file (each element is one line, without its terminating newline). -/
def splitNl : Str → List Str
  | [] => [[]]
  | c :: rest =>
    if c = '\n' then [] :: splitNl rest
    else
      match splitNl rest with
      | [] => [[c]]
      | l :: ls => (c :: l) :: ls

/-- Python's `needle in hay` substring test. -/
def substr (needle : Str) : Str → Bool
  | [] => needle.isEmpty
  | c :: rest => needle.isPrefixOf (c :: rest) || substr needle rest

/-- Lift of `substr` to `String` values. -/
def substrS (needle hay : String) : Bool := substr needle.data hay.data

/-- Does a raw line start with the comment marker, Python
`line.startswith("#")`. -/
def startsHash (l : Str) : Bool := "#".data.isPrefixOf l

/-! ## `prepare_agent.py` (agent_engine_terraform_deployer)

Python `set`s of patterns are modelled as lists whose membership is the
set's content; `sorted(...)` is modelled by an insertion sort over the
lexicographic code-point order, applied to the deduplicated elements. -/

/-- Lexicographic code-point comparison, Python string `<=`. -/
def pyLe : Str → Str → Bool
  | [], _ => true
  | _ :: _, [] => false
  | c :: r, d :: s => if c = d then pyLe r s else decide (c < d)

/-- Insert into a sorted list (auxiliary for `sortStrs`). -/
def insertSorted (x : Str) : List Str → List Str
  | [] => [x]
  | y :: rest => if pyLe x y then x :: y :: rest else y :: insertSorted x rest

/-- Insertion sort by `pyLe`; models Python `sorted` on a set of strings. -/
def sortStrs : List Str → List Str
  | [] => []
  | x :: rest => insertSorted x (sortStrs rest)

/-- The entries of an exclusion file as read by `prepare_agent`:
`{line.strip() for line in f if line.strip() and not line.startswith("#")}`. -/
def parseIgnoreEntries (c : Str) : List Str :=
  ((splitNl c).filter (fun l => !(strip l).isEmpty && !(startsHash l))).map strip

/-- The entries of a possibly absent exclusion file (an absent file has no
entries). -/
def currentIgnores : Option Str → List Str
  | none => []
  | some c => parseIgnoreEntries c

/-- The rule-based baseline exclusion set of `prepare_agent`. -/
def baseline_ignores : List Str :=
  ["__pycache__".data, "*.pyc".data, ".git".data, ".venv".data, "deploy".data,
   ".ds_store".data, ".terraform".data, ".terraform.lock.hcl".data, "venv".data,
   "env".data, ".idea".data, ".vscode".data, "*.zip".data, "*.pkl".data,
   "schema.json".data]

/-- The comment line written above appended exclusion patterns. -/
def addedHeaderLine : Str :=
  "# Added by Agent Engine Deployer Skill (Hybrid Analysis)".data

/-- Step 1 of `prepare_agent`: merge missing exclusion patterns into the
`.ae_ignore` file.  `file` is the file's content (`none` when the file does
not exist); the result is the new content together with whether a write
happened. -/
def ignoreStep (llm_ignores : List Str) (file : Option Str) : Option Str × Bool :=
  let final_ignores := baseline_ignores ++ llm_ignores
  let current_ignores : List Str := currentIgnores file
  let missing_ignores :=
    (final_ignores.filter (fun e => !(current_ignores.contains e))).dedup
  if missing_ignores = [] then (file, false)
  else
    let pre : Str := if current_ignores = [] then [] else "\n".data
    let items : Str :=
      ((sortStrs missing_ignores).map (fun i => i ++ "\n".data)).flatten
    (some (file.getD [] ++ pre ++ addedHeaderLine ++ "\n".data ++ items), true)

/-- The mandatory dependency line of the requirements step. -/
def mandatory_dep : Str := "google-cloud-aiplatform[agent_engines,adk]".data

/-- The requirements check of `prepare_agent`:
`"google-cloud-aiplatform" in content and "agent_engines" in content`
(false when the file does not exist). -/
def hasDep (file : Option Str) : Bool :=
  match file with
  | none => false
  | some content =>
    substr "google-cloud-aiplatform".data content &&
    substr "agent_engines".data content

/-- Step 2 of `prepare_agent`: append the mandatory dependency to
`requirements.txt` unless the substring check already succeeds. -/
def reqStep (file : Option Str) : Option Str × Bool :=
  if hasDep file then (file, false)
  else
    (some (file.getD [] ++ "\n# Mandatory for Agent Engine\n".data ++
      mandatory_dep ++ "\n".data), true)

/-- Split a line at its first `=` character (Python `line.split("=", 1)`),
returning the parts before and after it. -/
def splitFirstEq : Str → Str × Str
  | [] => ([], [])
  | c :: rest =>
    if c = '=' then ([], rest)
    else
      let p := splitFirstEq rest
      (c :: p.1, p.2)

/-- The `KEY=VALUE` pairs of an environment file in file order, as parsed
by `prepare_agent` (lines with `=` whose stripped form is not a comment). -/
def parseEnvPairs (c : Str) : List (Str × Str) :=
  (splitNl c).filterMap (fun line =>
    if line.contains '=' && !(startsHash (strip line)) then
      some (strip (splitFirstEq line).1, strip (splitFirstEq line).2)
    else none)

/-- The two fixed telemetry variables of `prepare_agent`. -/
def telemetry_vars : List (Str × Str) :=
  [("GOOGLE_CLOUD_AGENT_ENGINE_ENABLE_TELEMETRY".data, "true".data),
   ("OTEL_INSTRUMENTATION_GENAI_CAPTURE_MESSAGE_CONTENT".data, "true".data)]

/-- Step 3 of `prepare_agent`: append the telemetry variables missing from
the `.env` file. -/
def envStep (file : Option Str) : Option Str × Bool :=
  let existing_vars := parseEnvPairs (file.getD [])
  let existingKeys := existing_vars.map (fun p => p.1)
  let new_vars := telemetry_vars.filter (fun p => !(existingKeys.contains p.1))
  if new_vars = [] then (file, false)
  else
    (some (file.getD [] ++ "\n# Added by Agent Engine Deployer Skill\n".data ++
      (new_vars.map (fun p => p.1 ++ "=".data ++ p.2 ++ "\n".data)).flatten), true)

/-- The three config files of a target agent directory (`none` = absent). -/
structure AgentDir where
  aeIgnore : Option Str
  requirements : Option Str
  envFile : Option Str
  deriving DecidableEq, Repr

/-- The function `prepare_agent`: the three merge steps run in sequence over a target
directory, given the (possibly empty) model-suggested exclusion set. -/
def prepare_agent (llm_ignores : List Str) (d : AgentDir) : AgentDir :=
  ⟨(ignoreStep llm_ignores d.aeIgnore).1,
   (reqStep d.requirements).1,
   (envStep d.envFile).1⟩

/-- First-match association lookup. -/
def lookupFirst (k : Str) : List (Str × Str) → Option Str
  | [] => none
  | p :: rest => if p.1 = k then some p.2 else lookupFirst k rest

/-- The effective value of a key in an environment file: the value of its
last occurrence, matching how `prepare_agent` builds its dictionary. -/
def envLookup (c : Str) (k : Str) : Option Str :=
  lookupFirst k (parseEnvPairs c).reverse

/-- The dependency content of a requirements file: its non-empty,
non-comment lines, stripped. -/
def reqEntries (c : Str) : List Str :=
  ((splitNl c).map strip).filter (fun l => !l.isEmpty && !(startsHash l))

/-- A pattern that survives a round trip through the exclusion file:
already stripped, non-empty, not a comment, and on a single line. -/
abbrev goodPat (e : Str) : Prop :=
  strip e = e ∧ e ≠ [] ∧ startsHash e = false ∧ '\n' ∉ e

/-! ## The two `update_skill.py` sync scripts

The cache directory is abstracted by whether the path exists and whether it
holds a `.git` working copy; the results of the external `git` commands and
of the fallible `shutil` filesystem operations are an oracle (`GitWorld`,
`SyncWorld`).  Each run is a pure function returning the script's outcome —
`Except.error` for an uncaught exception, `Except.ok` with the process exit
code otherwise — together with the list of operations performed. -/

/-- Observable state of the repository cache directory. -/
structure CacheState where
  present : Bool
  isRepo : Bool
  deriving DecidableEq, Repr

/-- Results of the external commands and of the cache-side `rmtree`. -/
structure GitWorld where
  cloneOk : Bool
  pullOk : Bool
  rmtreeOk : Bool
  deriving DecidableEq, Repr

/-- Operations performed by a sync-script run. -/
inductive Ev where
  | branchAbsent : Ev
  | branchPresent : Ev
  | mkdirCache : Ev
  | clone : Ev
  | rmtreeCache : Ev
  | pull : Ev
  | pullWarn : Ev
  | syncCall : String → String → Ev
  | skipMissing : String → Ev
  | rmtreeDest : String → Ev
  | copytree : String → String → Ev
  deriving DecidableEq, Repr

/-- The function `ensure_repo_updated` of the adk script: clone if absent, delete and
re-clone if present without `.git`, otherwise pull (returning success even
when the pull fails).  The cache-side `rmtree` is not inside a `try`, so
its failure is an uncaught exception. -/
def ensure_repo_updated_adk (st : CacheState) (g : GitWorld) :
    Except String (Bool × CacheState) × List Ev :=
  if st.present = false then
    if g.cloneOk then
      (.ok (true, ⟨true, true⟩), [.branchAbsent, .mkdirCache, .clone])
    else
      (.ok (false, ⟨true, false⟩), [.branchAbsent, .mkdirCache, .clone])
  else if st.isRepo = false then
    if g.rmtreeOk then
      (.ok (g.cloneOk, ⟨true, g.cloneOk⟩),
        [.branchPresent, .rmtreeCache, .mkdirCache, .clone])
    else
      (.error "shutil.rmtree raised", [.branchPresent, .rmtreeCache])
  else
    (.ok (true, st),
      [.branchPresent, .pull] ++ (if g.pullOk then [] else [.pullWarn]))

/-- The function `ensure_repo_updated` of the a2ui script: clone if absent, otherwise
pull (returning success even when the pull fails).  There is no working-copy
validity check. -/
def ensure_repo_updated_a2ui (st : CacheState) (g : GitWorld) :
    Except String (Bool × CacheState) × List Ev :=
  if st.present = false then
    if g.cloneOk then
      (.ok (true, ⟨true, true⟩), [.branchAbsent, .mkdirCache, .clone])
    else
      (.ok (false, ⟨true, false⟩), [.branchAbsent, .mkdirCache, .clone])
  else
    (.ok (true, st),
      [.branchPresent, .pull] ++ (if g.pullOk then [] else [.pullWarn]))

/-- Filesystem oracle for a sync-script run: which source paths exist in
the cached repository, which destinations exist in the skill folder, and
whether the `shutil` operations of `sync_directory` succeed. -/
structure SyncWorld where
  git : GitWorld
  srcPresent : List String
  destPresent : List String
  destRmtreeOk : Bool
  copytreeOk : Bool
  deriving DecidableEq, Repr

/-- The function `sync_directory` (identical in both scripts): skip when the source is
missing, otherwise remove the destination if it exists and copy the tree.
Neither `shutil.rmtree` nor `shutil.copytree` is inside a `try`, so their
failures are uncaught exceptions. -/
def sync_directory_ev (srcRel destRel : String) (w : SyncWorld) :
    Except String Unit × List Ev :=
  if srcRel ∈ w.srcPresent then
    if destRel ∈ w.destPresent then
      if w.destRmtreeOk then
        if w.copytreeOk then
          (.ok (), [.syncCall srcRel destRel, .rmtreeDest destRel,
            .copytree srcRel destRel])
        else
          (.error "shutil.copytree raised",
            [.syncCall srcRel destRel, .rmtreeDest destRel])
      else
        (.error "shutil.rmtree raised", [.syncCall srcRel destRel])
    else
      if w.copytreeOk then
        (.ok (), [.syncCall srcRel destRel, .copytree srcRel destRel])
      else
        (.error "shutil.copytree raised", [.syncCall srcRel destRel])
  else
    (.ok (), [.syncCall srcRel destRel, .skipMissing srcRel])

/-- Run `sync_directory` over a list of (source, destination) mappings,
stopping at the first uncaught exception. -/
def runSyncs (maps : List (String × String)) (w : SyncWorld) :
    Except String Unit × List Ev :=
  match maps with
  | [] => (.ok (), [])
  | (s, d) :: rest =>
    match sync_directory_ev s d w with
    | (.error e, evs) => (.error e, evs)
    | (.ok _, evs) =>
      match runSyncs rest w with
      | (r, evs2) => (r, evs ++ evs2)

/-- Turn the result of the sync phase into the script's final outcome
(normal completion has exit code 0). -/
def exitZero : Except String Unit → Except String Nat
  | .error e => .error e
  | .ok _ => .ok 0

/-- The list `DIRECTORIES_TO_SYNC` of the adk script. -/
def adkDirectoriesToSync : List String := ["contributing/samples"]

/-- The adk script's mapping computation:
`target = "examples" if "samples" in d else d`. -/
def adkMappings : List (String × String) :=
  adkDirectoriesToSync.map
    (fun d => (d, if substrS "samples" d then "examples" else d))

/-- The entry point `main` of the adk script: update the cache (exit 1 on failure), sync
the configured directories, then sync `docs` when present in the cache. -/
def main_adk (st : CacheState) (w : SyncWorld) : Except String Nat × List Ev :=
  match ensure_repo_updated_adk st w.git with
  | (.error e, evs) => (.error e, evs)
  | (.ok (ok, _), evs) =>
    if ok = false then
      (.ok 1, evs)
    else
      match runSyncs adkMappings w with
      | (.error e, evs2) => (.error e, evs ++ evs2)
      | (.ok _, evs2) =>
        if "docs" ∈ w.srcPresent then
          match sync_directory_ev "docs" "docs" w with
          | (r, evs3) => (exitZero r, evs ++ evs2 ++ evs3)
        else
          (.ok 0, evs ++ evs2)

/-- The list `DIRECTORIES_TO_SYNC` of the a2ui script. -/
def a2uiDirectoriesToSync : List String :=
  ["specification", "docs", "renderers", "tools"]

/-- The mapping `SAMPLES_MAPPING` of the a2ui script, in dictionary insertion order. -/
def a2uiSamplesMapping : List (String × String) :=
  [("samples/agent/adk/rizzcharts", "examples/agent/rizzcharts"),
   ("samples/agent/adk/contact_lookup", "examples/agent/contact_lookup"),
   ("samples/client/lit/shell", "examples/client/generic_shell")]

/-- The entry point `main` of the a2ui script: update the cache (exit 1 on failure), then
sync the configured directories and the sample mappings. -/
def main_a2ui (st : CacheState) (w : SyncWorld) : Except String Nat × List Ev :=
  match ensure_repo_updated_a2ui st w.git with
  | (.error e, evs) => (.error e, evs)
  | (.ok (ok, _), evs) =>
    if ok = false then
      (.ok 1, evs)
    else
      match runSyncs (a2uiDirectoriesToSync.map (fun d => (d, d)) ++
          a2uiSamplesMapping) w with
      | (r, evs2) => (exitZero r, evs ++ evs2)

/-- Is an event an invocation of `sync_directory`. -/
def isSyncCall : Ev → Bool
  | .syncCall _ _ => true
  | _ => false

/-! ## Tree-level semantics of `sync_directory`

`shutil.copytree` with `shutil.ignore_patterns("node_modules", ".git",
"__pycache__", ".DS_Store")` walks the source tree and, at every level,
skips the entries whose name matches one of the patterns (the patterns
contain no wildcards, so matching is name equality). -/

mutual
/-- A filesystem subtree: a file with contents, or a directory. -/
inductive FsTree : Type where
  | file : Str → FsTree
  | dir : FsEntries → FsTree
/-- The named entries of a directory. -/
inductive FsEntries : Type where
  | nil : FsEntries
  | cons : String → FsTree → FsEntries → FsEntries
end

/-- The fixed ignore patterns passed to `shutil.ignore_patterns`. -/
def ignoredNames : List String :=
  ["node_modules", ".git", "__pycache__", ".DS_Store"]

mutual
/-- Model of `shutil.copytree` with the fixed ignore patterns: the copied tree. -/
def copytreeIg : FsTree → FsTree
  | .file c => .file c
  | .dir es => .dir (copyEntries es)
/-- Entry-list part of `copytreeIg`: drop ignored names at this level and
recurse into the rest. -/
def copyEntries : FsEntries → FsEntries
  | .nil => .nil
  | .cons n t rest =>
    if n ∈ ignoredNames then copyEntries rest
    else .cons n (copytreeIg t) (copyEntries rest)
end

/-- Find a directory entry by name (first match). -/
def findEntry : FsEntries → String → Option FsTree
  | .nil, _ => none
  | .cons n t rest, m => if n = m then some t else findEntry rest m

/-- Follow a path of names down a tree. -/
def lookupT : FsTree → List String → Option FsTree
  | t, [] => some t
  | .file _, _ :: _ => none
  | .dir es, n :: p =>
    match findEntry es n with
    | none => none
    | some t => lookupT t p

/-- Follow a path below an optional tree (absent tree has no entries). -/
def lookupO (o : Option FsTree) (p : List String) : Option FsTree :=
  match o with
  | none => none
  | some t => lookupT t p

/-- The function `sync_directory` at tree level, for an existing source subtree: the
destination (whatever it held before, `dest`) is removed and replaced by
the filtered copy of the source; a missing source leaves the destination
untouched. -/
def sync_directory_tree (src : Option FsTree) (dest : Option FsTree) :
    Option FsTree :=
  match src with
  | none => dest
  | some s => some (copytreeIg s)

/-! ## Helper lemmas about `copytreeIg` -/

/-- Looking up a name in a filtered entry list: ignored names are gone,
kept entries are the filtered copies of the originals. -/
theorem find_copy : ∀ (es : FsEntries) (n : String),
    findEntry (copyEntries es) n =
      if n ∈ ignoredNames then none else (findEntry es n).map copytreeIg
  | .nil, n => by simp [copyEntries, findEntry]
  | .cons m t rest, n => by
    have ih := find_copy rest n
    simp only [copyEntries]
    by_cases hm : m ∈ ignoredNames
    · simp only [hm, if_true, ih]
      by_cases hn : n ∈ ignoredNames
      · simp [hn]
      · simp only [hn, if_false, findEntry]
        have hne : ¬ m = n := by rintro rfl; exact hn hm
        simp [hne]
    · simp only [hm, if_false, findEntry]
      by_cases hmn : m = n
      · subst hmn
        simp [hm]
      · simp [hmn, ih]

/-- Path characterisation of the filtered copy: a path with an ignored
component leads nowhere, any other path leads to the filtered copy of what
it led to in the source. -/
theorem lookup_copy (p : List String) : ∀ (t : FsTree),
    lookupT (copytreeIg t) p =
      if p.any (fun n => n ∈ ignoredNames) then none
      else (lookupT t p).map copytreeIg := by
  induction p with
  | nil => intro t; simp [lookupT]
  | cons n p ih =>
    intro t
    match t with
    | .file c =>
      simp only [copytreeIg, lookupT]
      by_cases h : (n :: p).any (fun m => m ∈ ignoredNames) <;> simp [h]
    | .dir es =>
      simp only [copytreeIg, lookupT, find_copy]
      by_cases hn : n ∈ ignoredNames
      · simp [hn, List.any_cons]
      · simp only [hn, if_false, List.any_cons, decide_eq_true_eq]
        match hfe : findEntry es n with
        | none => simp [hn]
        | some t' =>
          simp only [Option.map_some]
          show lookupT (copytreeIg t') p = _
          rw [ih t']
          simp [hn]

/-- The filtered copy of a tree is a file exactly when the original is that
file (file nodes are copied verbatim). -/
theorem copy_eq_file (t : FsTree) (c : Str) :
    copytreeIg t = .file c ↔ t = .file c := by
  match t with
  | .file c' => simp [copytreeIg]
  | .dir es => simp [copytreeIg]

/-- C2 -/
theorem c2_sync_replaces_dest_with_filtered_source (s : FsTree)
    (d : Option FsTree) (p : List String) (c : Str) :
    sync_directory_tree (some s) d = some (copytreeIg s) ∧
    lookupO (sync_directory_tree (some s) d) p =
      (if p.any (fun n => n ∈ ignoredNames) then none
       else (lookupT s p).map copytreeIg) ∧
    (lookupO (sync_directory_tree (some s) d) p = some (.file c) ↔
      (p.any (fun n => n ∈ ignoredNames) = false ∧
        lookupT s p = some (.file c))) := by
  have h2 : lookupO (sync_directory_tree (some s) d) p =
      (if p.any (fun n => n ∈ ignoredNames) then none
       else (lookupT s p).map copytreeIg) := by
    simp only [sync_directory_tree, lookupO]
    exact lookup_copy p s
  refine ⟨rfl, h2, ?_⟩
  rw [h2]
  cases hp : p.any (fun n => n ∈ ignoredNames) with
  | true => simp
  | false =>
    simp only [if_false, Bool.false_eq_true]
    constructor
    · intro h
      match hl : lookupT s p with
      | none => rw [hl] at h; simp at h
      | some t' =>
        rw [hl] at h
        have h' : copytreeIg t' = .file c := by simpa using h
        exact ⟨by simp, congrArg some ((copy_eq_file t' c).mp h')⟩
    · rintro ⟨-, hl⟩
      rw [hl]
      simp [copytreeIg]

theorem c2_sync_replaces_dest_with_filtered_source_witness :
    lookupO (sync_directory_tree
        (some (.dir (.cons "a" (.file "x".data)
          (.cons ".git" (.file "y".data) .nil))))
        (some (.file "old".data))) ["a"] = some (.file "x".data) ∧
    lookupO (sync_directory_tree
        (some (.dir (.cons "a" (.file "x".data)
          (.cons ".git" (.file "y".data) .nil))))
        (some (.file "old".data))) [".git"] = none := by
  constructor
  · exact (c2_sync_replaces_dest_with_filtered_source
      (.dir (.cons "a" (.file "x".data) (.cons ".git" (.file "y".data) .nil)))
      (some (.file "old".data)) ["a"] "x".data).2.2.mpr ⟨by decide, rfl⟩
  · have h := (c2_sync_replaces_dest_with_filtered_source
      (.dir (.cons "a" (.file "x".data) (.cons ".git" (.file "y".data) .nil)))
      (some (.file "old".data)) [".git"] "x".data).2.1
    rw [h]
    rfl

/-- Python's `in` agrees with contiguous-sublist containment. -/
theorem substr_correct (needle : Str) : ∀ hay : Str,
    substr needle hay = true ↔ needle <:+: hay
  | [] => by
    simp [substr, List.isEmpty_iff, List.infix_nil]
  | c :: t => by
    rw [substr]
    simp only [Bool.or_eq_true, List.isPrefixOf_iff_prefix,
      substr_correct needle t, List.infix_cons_iff]

/-- C9 -/
theorem c9_dependency_check_pure_substring (c : Str) :
    (hasDep (some c) = true ↔
      ("google-cloud-aiplatform".data <:+: c ∧ "agent_engines".data <:+: c)) ∧
    ((reqStep (some c)).2 = true ↔
      ¬ ("google-cloud-aiplatform".data <:+: c ∧ "agent_engines".data <:+: c)) ∧
    ((reqStep (some c)).2 = true →
      (reqStep (some c)).1 =
        some (c ++ "\n# Mandatory for Agent Engine\n".data ++
          mandatory_dep ++ "\n".data)) := by
  have h : hasDep (some c) = true ↔
      ("google-cloud-aiplatform".data <:+: c ∧ "agent_engines".data <:+: c) := by
    simp [hasDep, substr_correct]
  refine ⟨h, ?_, ?_⟩
  · rw [← h]
    simp only [reqStep]
    by_cases hd : hasDep (some c) <;> simp [hd]
  · intro hw
    simp only [reqStep] at hw ⊢
    by_cases hd : hasDep (some c)
    · simp [hd] at hw
    · simp [hd, Option.getD]

theorem c9_witness :
    (hasDep (some "x=1\ngoogle-cloud-aiplatform\nagent_engines\n".data) = true ↔
      ("google-cloud-aiplatform".data <:+:
        "x=1\ngoogle-cloud-aiplatform\nagent_engines\n".data ∧
       "agent_engines".data <:+:
        "x=1\ngoogle-cloud-aiplatform\nagent_engines\n".data)) := by
  exact (c9_dependency_check_pure_substring
    "x=1\ngoogle-cloud-aiplatform\nagent_engines\n".data).1

/-- C5 -/
theorem c5_empty_dir_exact_contents :
    (prepare_agent [] ⟨none, none, none⟩).aeIgnore.isSome = true ∧
    (prepare_agent [] ⟨none, none, none⟩).requirements.isSome = true ∧
    (prepare_agent [] ⟨none, none, none⟩).envFile.isSome = true ∧
    (parseIgnoreEntries
        ((prepare_agent [] ⟨none, none, none⟩).aeIgnore.getD [])).toFinset
      = baseline_ignores.toFinset ∧
    reqEntries ((prepare_agent [] ⟨none, none, none⟩).requirements.getD [])
      = [mandatory_dep] ∧
    parseEnvPairs ((prepare_agent [] ⟨none, none, none⟩).envFile.getD [])
      = telemetry_vars := by
  refine ⟨rfl, rfl, rfl, by decide, by decide, by decide⟩

/-- C4 cex -/
theorem c4_counterexample_hash_pattern_rewrites :
    (ignoreStep ["#zz".data] (ignoreStep ["#zz".data] none).1).2 = true := by
  decide

/-- C1 cex -/
theorem c1_counterexample_a2ui_invalid_cache_kept :
    (ensure_repo_updated_a2ui ⟨true, false⟩ ⟨true, false, true⟩).1
      = .ok (true, ⟨true, false⟩) ∧
    Ev.rmtreeCache ∉ (ensure_repo_updated_a2ui ⟨true, false⟩ ⟨true, false, true⟩).2 ∧
    Ev.clone ∉ (ensure_repo_updated_a2ui ⟨true, false⟩ ⟨true, false, true⟩).2 := by
  refine ⟨rfl, by decide, by decide⟩

/-- C1 amended -/
theorem c1_adk_reclones_a2ui_does_not (st : CacheState) (g : GitWorld)
    (hp : st.present = true) (hr : st.isRepo = false) (hrm : g.rmtreeOk = true) :
    ensure_repo_updated_adk st g =
      (.ok (g.cloneOk, ⟨true, g.cloneOk⟩),
        [.branchPresent, .rmtreeCache, .mkdirCache, .clone]) ∧
    ensure_repo_updated_a2ui st g =
      (.ok (true, st),
        [.branchPresent, .pull] ++ (if g.pullOk then [] else [.pullWarn])) := by
  obtain ⟨p, r⟩ := st
  simp only at hp hr
  subst hp; subst hr
  constructor
  · simp [ensure_repo_updated_adk, hrm]
  · simp [ensure_repo_updated_a2ui]

theorem c1_adk_reclones_a2ui_does_not_witness :
    ensure_repo_updated_adk ⟨true, false⟩ ⟨true, true, true⟩ =
      (.ok (true, ⟨true, true⟩),
        [.branchPresent, .rmtreeCache, .mkdirCache, .clone]) := by
  exact (c1_adk_reclones_a2ui_does_not ⟨true, false⟩ ⟨true, true, true⟩ rfl rfl rfl).1

/-- C10 -/
theorem c10_failed_clone_leaves_present_branch (g g' : GitWorld) (b : Bool)
    (hc : g.cloneOk = false) :
    ensure_repo_updated_adk ⟨false, b⟩ g =
      (.ok (false, ⟨true, false⟩), [.branchAbsent, .mkdirCache, .clone]) ∧
    ensure_repo_updated_a2ui ⟨false, b⟩ g =
      (.ok (false, ⟨true, false⟩), [.branchAbsent, .mkdirCache, .clone]) ∧
    (ensure_repo_updated_adk ⟨true, false⟩ g').2.head? = some .branchPresent ∧
    Ev.branchAbsent ∉ (ensure_repo_updated_adk ⟨true, false⟩ g').2 ∧
    (ensure_repo_updated_a2ui ⟨true, false⟩ g').2.head? = some .branchPresent ∧
    Ev.branchAbsent ∉ (ensure_repo_updated_a2ui ⟨true, false⟩ g').2 := by
  refine ⟨?_, ?_, ?_, ?_, ?_, ?_⟩
  · simp [ensure_repo_updated_adk, hc]
  · simp [ensure_repo_updated_a2ui, hc]
  · by_cases h : g'.rmtreeOk <;> simp [ensure_repo_updated_adk, h]
  · by_cases h : g'.rmtreeOk <;> simp [ensure_repo_updated_adk, h]
  · by_cases h : g'.pullOk <;> simp [ensure_repo_updated_a2ui, h]
  · by_cases h : g'.pullOk <;> simp [ensure_repo_updated_a2ui, h]

theorem c10_failed_clone_leaves_present_branch_witness :
    ensure_repo_updated_adk ⟨false, false⟩ ⟨false, true, true⟩ =
      (.ok (false, ⟨true, false⟩), [.branchAbsent, .mkdirCache, .clone]) := by
  exact (c10_failed_clone_leaves_present_branch ⟨false, true, true⟩ ⟨false, true, true⟩ false rfl).1

/-! ## Helper lemmas about the sync traces -/

/-- Every call of `sync_directory` records its invocation first. -/
theorem sync_trace_head (s d : String) (w : SyncWorld) :
    ∃ rest, (sync_directory_ev s d w).2 = .syncCall s d :: rest := by
  simp only [sync_directory_ev]
  by_cases h1 : s ∈ w.srcPresent <;>
    by_cases h2 : d ∈ w.destPresent <;>
      by_cases h3 : w.destRmtreeOk <;>
        by_cases h4 : w.copytreeOk <;>
          simp [h1, h2, h3, h4]

/-- The function `sync_directory` never invokes `git clone`. -/
theorem sync_trace_no_clone (s d : String) (w : SyncWorld) :
    Ev.clone ∉ (sync_directory_ev s d w).2 := by
  simp only [sync_directory_ev]
  by_cases h1 : s ∈ w.srcPresent <;>
    by_cases h2 : d ∈ w.destPresent <;>
      by_cases h3 : w.destRmtreeOk <;>
        by_cases h4 : w.copytreeOk <;>
          simp [h1, h2, h3, h4]

/-- The sync phase never invokes `git clone`. -/
theorem runSyncs_no_clone (maps : List (String × String)) (w : SyncWorld) :
    Ev.clone ∉ (runSyncs maps w).2 := by
  induction maps with
  | nil => simp [runSyncs]
  | cons m rest ih =>
    obtain ⟨s, d⟩ := m
    simp only [runSyncs]
    rcases hs : sync_directory_ev s d w with ⟨r, evs⟩
    have hnc : Ev.clone ∉ evs := by
      have := sync_trace_no_clone s d w
      rw [hs] at this
      exact this
    match r with
    | .error e => simpa using hnc
    | .ok u =>
      rcases hr : runSyncs rest w with ⟨r2, evs2⟩
      have h2 : Ev.clone ∉ evs2 := by
        have := ih
        rw [hr] at this
        exact this
      simp [List.mem_append, hnc, h2]

/-- When the source of the first mapping is handled, the sync phase records
the corresponding `sync_directory` invocation. -/
theorem runSyncs_head_mem (s d : String) (rest : List (String × String))
    (w : SyncWorld) :
    Ev.syncCall s d ∈ (runSyncs ((s, d) :: rest) w).2 := by
  simp only [runSyncs]
  obtain ⟨tl, htl⟩ := sync_trace_head s d w
  rcases hs : sync_directory_ev s d w with ⟨r, evs⟩
  rw [hs] at htl
  simp only at htl
  match r with
  | .error e => simp [htl]
  | .ok u =>
    rcases hr : runSyncs rest w with ⟨r2, evs2⟩
    simp [htl, List.mem_append]

/-- With the filesystem operations succeeding, `sync_directory` returns
normally. -/
theorem sync_ok (s d : String) (w : SyncWorld) (h3 : w.destRmtreeOk = true)
    (h4 : w.copytreeOk = true) :
    (sync_directory_ev s d w).1 = .ok () := by
  simp only [sync_directory_ev]
  by_cases h1 : s ∈ w.srcPresent <;>
    by_cases h2 : d ∈ w.destPresent <;>
      simp [h1, h2, h3, h4]

/-- With the filesystem operations succeeding, the sync phase returns
normally. -/
theorem runSyncs_ok (maps : List (String × String)) (w : SyncWorld)
    (h3 : w.destRmtreeOk = true) (h4 : w.copytreeOk = true) :
    (runSyncs maps w).1 = .ok () := by
  induction maps with
  | nil => simp [runSyncs]
  | cons m rest ih =>
    obtain ⟨s, d⟩ := m
    simp only [runSyncs]
    rcases hs : sync_directory_ev s d w with ⟨r, evs⟩
    have hok : r = .ok () := by
      have := sync_ok s d w h3 h4
      rw [hs] at this
      exact this
    subst hok
    rcases hr : runSyncs rest w with ⟨r2, evs2⟩
    have h2 : r2 = .ok () := by
      have := ih
      rw [hr] at this
      exact this
    subst h2
    simp

/-- With the cache absent, `ensure_repo_updated` performs exactly the
mkdir-and-clone sequence (both scripts). -/
theorem ensure_absent_eq (st : CacheState) (g : GitWorld)
    (hp : st.present = false) :
    ensure_repo_updated_adk st g =
      (.ok (g.cloneOk, ⟨true, g.cloneOk⟩),
        [.branchAbsent, .mkdirCache, .clone]) ∧
    ensure_repo_updated_a2ui st g =
      (.ok (g.cloneOk, ⟨true, g.cloneOk⟩),
        [.branchAbsent, .mkdirCache, .clone]) := by
  cases hg : g.cloneOk <;>
    simp [ensure_repo_updated_adk, ensure_repo_updated_a2ui, hp, hg]

/-- C6 -/
theorem c6_absent_cache_single_clone_and_abort (st : CacheState)
    (w : SyncWorld) (hp : st.present = false) :
    (main_adk st w).2.count Ev.clone = 1 ∧
    (main_a2ui st w).2.count Ev.clone = 1 ∧
    (w.git.cloneOk = false →
      (main_adk st w).1 = .ok 1 ∧
      (main_adk st w).2.countP isSyncCall = 0 ∧
      (main_a2ui st w).1 = .ok 1 ∧
      (main_a2ui st w).2.countP isSyncCall = 0) := by
  obtain ⟨hadk, ha2⟩ := ensure_absent_eq st w.git hp
  cases hg : w.git.cloneOk
  · rw [hg] at hadk ha2
    have hma : main_adk st w = (.ok 1, [.branchAbsent, .mkdirCache, .clone]) := by
      simp [main_adk, hadk]
    have hmb : main_a2ui st w = (.ok 1, [.branchAbsent, .mkdirCache, .clone]) := by
      simp [main_a2ui, ha2]
    rw [hma, hmb]
    refine ⟨by decide, by decide, fun _ => ⟨rfl, by decide, rfl, by decide⟩⟩
  · rw [hg] at hadk ha2
    refine ⟨?_, ?_, fun hcontra => absurd hcontra (by decide)⟩
    · -- adk, clone succeeded: one clone from ensure, none from the syncs
      simp only [main_adk, hadk]
      rcases hrs : runSyncs adkMappings w with ⟨r2, evs2⟩
      have h2 : Ev.clone ∉ evs2 := by
        have := runSyncs_no_clone adkMappings w
        rw [hrs] at this
        exact this
      match r2 with
      | .error e =>
        simp [List.count_append, List.count_eq_zero.mpr h2]
      | .ok u =>
        by_cases hd : "docs" ∈ w.srcPresent
        · simp only [hd, if_true]
          rcases hds : sync_directory_ev "docs" "docs" w with ⟨r3, evs3⟩
          have h3 : Ev.clone ∉ evs3 := by
            have := sync_trace_no_clone "docs" "docs" w
            rw [hds] at this
            exact this
          simp [List.count_append, List.count_eq_zero.mpr h2,
            List.count_eq_zero.mpr h3]
        · simp [hd, List.count_append, List.count_eq_zero.mpr h2]
    · -- a2ui, clone succeeded
      simp only [main_a2ui, ha2]
      rcases hrs : runSyncs (a2uiDirectoriesToSync.map (fun d => (d, d)) ++
          a2uiSamplesMapping) w with ⟨r2, evs2⟩
      have h2 : Ev.clone ∉ evs2 := by
        have := runSyncs_no_clone (a2uiDirectoriesToSync.map (fun d => (d, d)) ++
          a2uiSamplesMapping) w
        rw [hrs] at this
        exact this
      simp [List.count_append, List.count_eq_zero.mpr h2]

theorem c6_witness :
    (main_adk ⟨false, false⟩ ⟨⟨false, true, true⟩, [], [], true, true⟩).2.count
      Ev.clone = 1 ∧
    (main_a2ui ⟨false, false⟩ ⟨⟨false, true, true⟩, [], [], true, true⟩).2.count
      Ev.clone = 1 ∧
    (main_adk ⟨false, false⟩ ⟨⟨false, true, true⟩, [], [], true, true⟩).1
      = .ok 1 ∧
    (main_adk ⟨false, false⟩
      ⟨⟨false, true, true⟩, [], [], true, true⟩).2.countP isSyncCall = 0 := by
  have h := c6_absent_cache_single_clone_and_abort ⟨false, false⟩
    ⟨⟨false, true, true⟩, [], [], true, true⟩ rfl
  exact ⟨h.1, h.2.1, (h.2.2 rfl).1, (h.2.2 rfl).2.1⟩

/-- C8 -/
theorem c8_pull_failure_nonfatal_proceeds (st : CacheState) (w : SyncWorld)
    (hp : st.present = true) (hr : st.isRepo = true) :
    (ensure_repo_updated_adk st w.git).1 = .ok (true, st) ∧
    (ensure_repo_updated_a2ui st w.git).1 = .ok (true, st) ∧
    (ensure_repo_updated_adk st w.git).1 =
      (ensure_repo_updated_adk st ⟨w.git.cloneOk, true, w.git.rmtreeOk⟩).1 ∧
    (ensure_repo_updated_a2ui st w.git).1 =
      (ensure_repo_updated_a2ui st ⟨w.git.cloneOk, true, w.git.rmtreeOk⟩).1 ∧
    (w.git.pullOk = false →
      Ev.pullWarn ∈ (ensure_repo_updated_adk st w.git).2 ∧
      Ev.pullWarn ∈ (ensure_repo_updated_a2ui st w.git).2) ∧
    Ev.syncCall "contributing/samples" "examples" ∈ (main_adk st w).2 ∧
    Ev.syncCall "specification" "specification" ∈ (main_a2ui st w).2 := by
  obtain ⟨p, r⟩ := st
  simp only at hp hr
  subst hp; subst hr
  have hea : ensure_repo_updated_adk ⟨true, true⟩ w.git =
      (.ok (true, ⟨true, true⟩),
        [.branchPresent, .pull] ++ (if w.git.pullOk then [] else [.pullWarn])) := by
    simp [ensure_repo_updated_adk]
  have heb : ensure_repo_updated_a2ui ⟨true, true⟩ w.git =
      (.ok (true, ⟨true, true⟩),
        [.branchPresent, .pull] ++ (if w.git.pullOk then [] else [.pullWarn])) := by
    simp [ensure_repo_updated_a2ui]
  refine ⟨by rw [hea], by rw [heb], ?_, ?_, ?_, ?_, ?_⟩
  · rw [hea]
    simp [ensure_repo_updated_adk]
  · rw [heb]
    simp [ensure_repo_updated_a2ui]
  · intro hpo
    rw [hea, heb, hpo]
    simp
  · -- adk main reaches the first sync invocation
    simp only [main_adk, hea]
    have hmem : Ev.syncCall "contributing/samples" "examples" ∈
        (runSyncs adkMappings w).2 := by
      have hm : adkMappings = [("contributing/samples", "examples")] := by decide
      rw [hm]
      exact runSyncs_head_mem "contributing/samples" "examples" [] w
    rcases hrs : runSyncs adkMappings w with ⟨r2, evs2⟩
    rw [hrs] at hmem
    simp only at hmem
    match r2 with
    | .error e => simp [List.mem_append, hmem]
    | .ok u =>
      by_cases hd : "docs" ∈ w.srcPresent
      · simp only [hd, if_true]
        rcases hds : sync_directory_ev "docs" "docs" w with ⟨r3, evs3⟩
        simp [List.mem_append, hmem]
      · simp [hd, List.mem_append, hmem]
  · -- a2ui main reaches the first sync invocation
    simp only [main_a2ui, heb]
    have hmem : Ev.syncCall "specification" "specification" ∈
        (runSyncs (a2uiDirectoriesToSync.map (fun d => (d, d)) ++
          a2uiSamplesMapping) w).2 := by
      have hm : a2uiDirectoriesToSync.map (fun d => (d, d)) ++ a2uiSamplesMapping
          = ("specification", "specification") ::
            ([("docs", "docs"), ("renderers", "renderers"), ("tools", "tools")] ++
              a2uiSamplesMapping) := by decide
      rw [hm]
      exact runSyncs_head_mem "specification" "specification" _ w
    rcases hrs : runSyncs (a2uiDirectoriesToSync.map (fun d => (d, d)) ++
      a2uiSamplesMapping) w with ⟨r2, evs2⟩
    rw [hrs] at hmem
    simp only at hmem
    simp [List.mem_append, hmem]

theorem c8_witness :
    (ensure_repo_updated_adk ⟨true, true⟩ ⟨true, false, true⟩).1
      = .ok (true, ⟨true, true⟩) ∧
    Ev.pullWarn ∈ (ensure_repo_updated_a2ui ⟨true, true⟩ ⟨true, false, true⟩).2 ∧
    Ev.syncCall "specification" "specification" ∈
      (main_a2ui ⟨true, true⟩
        ⟨⟨true, false, true⟩, ["specification"], [], true, true⟩).2 := by
  have h := c8_pull_failure_nonfatal_proceeds ⟨true, true⟩
    ⟨⟨true, false, true⟩, ["specification"], [], true, true⟩ rfl rfl
  exact ⟨h.1, (h.2.2.2.2.1 rfl).2, h.2.2.2.2.2.2⟩

/-- ensure never raises when the cache-side rmtree succeeds. -/
theorem ensure_no_exception (st : CacheState) (g : GitWorld)
    (hrm : g.rmtreeOk = true) :
    (∃ b s', (ensure_repo_updated_adk st g).1 = .ok (b, s')) ∧
    (∃ b s', (ensure_repo_updated_a2ui st g).1 = .ok (b, s')) := by
  obtain ⟨p, r⟩ := st
  cases p <;> cases r <;> cases hg : g.cloneOk <;>
    simp [ensure_repo_updated_adk, ensure_repo_updated_a2ui, hrm, hg]

/-- C3 cex -/
theorem c3_counterexample_uncaught_copytree :
    (main_adk ⟨true, true⟩
      ⟨⟨true, true, true⟩, ["contributing/samples"], [], true, false⟩).1
      = .error "shutil.copytree raised" := by
  rfl

/-- C3 amended -/
theorem c3_guarded_failures_caught_fs_errors_escape (st : CacheState)
    (w : SyncWorld) :
    (w.git.rmtreeOk = true → w.destRmtreeOk = true → w.copytreeOk = true →
      (∃ c, (main_adk st w).1 = .ok c) ∧ (∃ c, (main_a2ui st w).1 = .ok c)) ∧
    (st.present = true → st.isRepo = true →
      "contributing/samples" ∈ w.srcPresent → "examples" ∉ w.destPresent →
      w.copytreeOk = false →
      (main_adk st w).1 = .error "shutil.copytree raised") := by
  constructor
  · intro hrm h3 h4
    obtain ⟨⟨ba, sa, hea⟩, ⟨bb, sb, heb⟩⟩ := ensure_no_exception st w.git hrm
    constructor
    · rcases he : ensure_repo_updated_adk st w.git with ⟨r1, evs⟩
      rw [he] at hea
      simp only at hea
      subst hea
      simp only [main_adk, he]
      cases hba : ba
      · exact ⟨1, by simp⟩
      · rcases hrs : runSyncs adkMappings w with ⟨r2, evs2⟩
        have h2 : r2 = .ok () := by
          have := runSyncs_ok adkMappings w h3 h4
          rw [hrs] at this
          exact this
        subst h2
        by_cases hd : "docs" ∈ w.srcPresent
        · simp only [hd, if_true]
          rcases hds : sync_directory_ev "docs" "docs" w with ⟨r3, evs3⟩
          have hok3 : r3 = .ok () := by
            have := sync_ok "docs" "docs" w h3 h4
            rw [hds] at this
            exact this
          subst hok3
          exact ⟨0, rfl⟩
        · simp [hd]
    · rcases he : ensure_repo_updated_a2ui st w.git with ⟨r1, evs⟩
      rw [he] at heb
      simp only at heb
      subst heb
      simp only [main_a2ui, he]
      cases hbb : bb
      · exact ⟨1, by simp⟩
      · rcases hrs : runSyncs (a2uiDirectoriesToSync.map (fun d => (d, d)) ++
          a2uiSamplesMapping) w with ⟨r2, evs2⟩
        have h2 : r2 = .ok () := by
          have := runSyncs_ok (a2uiDirectoriesToSync.map (fun d => (d, d)) ++
            a2uiSamplesMapping) w h3 h4
          rw [hrs] at this
          exact this
        subst h2
        exact ⟨0, by simp [exitZero]⟩
  · intro hp hr hsrc hdest hcopy
    obtain ⟨p, r⟩ := st
    simp only at hp hr
    subst hp; subst hr
    have hea : ensure_repo_updated_adk ⟨true, true⟩ w.git =
        (.ok (true, ⟨true, true⟩),
          [.branchPresent, .pull] ++
            (if w.git.pullOk then [] else [.pullWarn])) := by
      simp [ensure_repo_updated_adk]
    have hs : sync_directory_ev "contributing/samples" "examples" w =
        (.error "shutil.copytree raised",
          [.syncCall "contributing/samples" "examples"]) := by
      simp [sync_directory_ev, hsrc, hdest, hcopy]
    have hsub : sync_directory_ev "contributing/samples"
        (if substrS "samples" "contributing/samples" = true then "examples"
         else "contributing/samples") w =
        (.error "shutil.copytree raised",
          [.syncCall "contributing/samples" "examples"]) := by
      have hx : (if substrS "samples" "contributing/samples" = true
          then "examples" else "contributing/samples") = "examples" := by decide
      rw [hx, hs]
    simp [main_adk, hea, adkMappings, adkDirectoriesToSync, runSyncs, hsub]

theorem c3_guarded_failures_caught_fs_errors_escape_witness :
    (∃ c, (main_adk ⟨true, true⟩
      ⟨⟨true, true, true⟩, [], [], true, true⟩).1 = .ok c) ∧
    (main_adk ⟨true, true⟩
      ⟨⟨true, true, true⟩, ["contributing/samples"], [], true, false⟩).1
      = .error "shutil.copytree raised" := by
  refine ⟨((c3_guarded_failures_caught_fs_errors_escape ⟨true, true⟩
    ⟨⟨true, true, true⟩, [], [], true, true⟩).1 rfl rfl rfl).1, ?_⟩
  exact (c3_guarded_failures_caught_fs_errors_escape ⟨true, true⟩
    ⟨⟨true, true, true⟩, ["contributing/samples"], [], true, false⟩).2
    rfl rfl (by decide) (by decide) rfl

/-! ## Line-splitting lemmas -/

/-- Splitting never produces an empty list of lines. -/
theorem splitNl_ne_nil : ∀ s : Str, splitNl s ≠ []
  | [] => by simp [splitNl]
  | c :: rest => by
    simp only [splitNl]
    by_cases h : c = '\n'
    · simp [h]
    · simp only [h, if_false]
      match hs : splitNl rest with
      | [] => simp
      | l :: ls => simp

/-- Splitting distributes over a newline-separated concatenation. -/
theorem splitNl_append : ∀ a b : Str,
    splitNl (a ++ '\n' :: b) = splitNl a ++ splitNl b
  | [], b => by simp [splitNl]
  | c :: a, b => by
    by_cases h : c = '\n'
    · subst h
      simp [splitNl, splitNl_append a b]
    · have ih := splitNl_append a b
      simp only [List.cons_append, splitNl, h, if_false, List.append_eq, ih]
      match ha : splitNl a with
      | [] => exact absurd ha (splitNl_ne_nil a)
      | l :: ls => simp

/-- A text without newline is a single line. -/
theorem splitNl_no_nl : ∀ s : Str, '\n' ∉ s → splitNl s = [s]
  | [], _ => by simp [splitNl]
  | c :: rest, h => by
    have hc : ¬ c = '\n' := fun hh => h (hh ▸ List.mem_cons_self c rest)
    have hr : '\n' ∉ rest := fun hh => h (List.mem_cons_of_mem c hh)
    simp only [splitNl, hc, if_false, splitNl_no_nl rest hr]

/-- Parsing environment pairs distributes over newline-separated parts. -/
theorem parseEnvPairs_append (a b : Str) :
    parseEnvPairs (a ++ '\n' :: b) = parseEnvPairs a ++ parseEnvPairs b := by
  simp only [parseEnvPairs, splitNl_append, List.filterMap_append]

/-- Parsing exclusion entries distributes over newline-separated parts. -/
theorem parseIgnoreEntries_append (a b : Str) :
    parseIgnoreEntries (a ++ '\n' :: b) =
      parseIgnoreEntries a ++ parseIgnoreEntries b := by
  simp only [parseIgnoreEntries, splitNl_append, List.filter_append,
    List.map_append]

/-- A lookup skips pairs whose key differs. -/
theorem lookupFirst_append_of_ne (k : Str) (xs ys : List (Str × Str))
    (h : ∀ p ∈ xs, p.1 ≠ k) :
    lookupFirst k (xs ++ ys) = lookupFirst k ys := by
  induction xs with
  | nil => rfl
  | cons p rest ih =>
    simp only [List.cons_append, lookupFirst]
    have hp : ¬ p.1 = k := h p (List.mem_cons_self p rest)
    simp only [hp, if_false]
    exact ih (fun q hq => h q (List.mem_cons_of_mem p hq))

/-- A successful lookup means the key occurs. -/
theorem lookupFirst_some_mem (k : Str) (l : List (Str × Str)) (v : Str)
    (h : lookupFirst k l = some v) : k ∈ l.map (fun p => p.1) := by
  induction l with
  | nil => simp [lookupFirst] at h
  | cons p rest ih =>
    simp only [lookupFirst] at h
    by_cases hp : p.1 = k
    · simp [hp]
    · simp only [hp, if_false] at h
      simp [ih h]

/-- Reassociation helpers for append-only results. -/
theorem append_shift2 (o a b : Str) : ∃ s, (o ++ a) ++ b = o ++ s :=
  ⟨a ++ b, by simp [List.append_assoc]⟩

theorem append_shift3 (o a b c : Str) : ∃ s, ((o ++ a) ++ b) ++ c = o ++ s :=
  ⟨a ++ (b ++ c), by simp [List.append_assoc]⟩

theorem append_shift4 (o a b c e : Str) :
    ∃ s, (((o ++ a) ++ b) ++ c) ++ e = o ++ s :=
  ⟨a ++ (b ++ (c ++ e)), by simp [List.append_assoc]⟩

/-- Appending lines whose parsed pairs have fresh keys does not change the
effective value of any other key. -/
theorem envLookup_append_preserved (old rest : Str) (k v : Str)
    (hk : lookupFirst k (parseEnvPairs old).reverse = some v)
    (hdis : ∀ p ∈ parseEnvPairs rest, p.1 ≠ k) :
    envLookup (old ++ '\n' :: rest) k = some v := by
  simp only [envLookup, parseEnvPairs_append, List.reverse_append]
  rw [lookupFirst_append_of_ne]
  · exact hk
  · intro p hp
    exact hdis p (List.mem_reverse.mp hp)


/-- The write branch of the environment step, explicitly. -/
theorem envStep_write_content (f : Option Str) (nv : List (Str × Str))
    (hnv : telemetry_vars.filter
      (fun p => !(((parseEnvPairs (f.getD [])).map (fun p => p.1)).contains
        p.1)) = nv)
    (hne : ¬ nv = []) :
    (envStep f).1 = some (f.getD [] ++
      "\n# Added by Agent Engine Deployer Skill\n".data ++
      (nv.map (fun p => p.1 ++ "=".data ++ p.2 ++ "\n".data)).flatten) := by
  simp only [envStep, hnv, if_neg hne]

/-- The environment step never changes the effective value of a key that is
already present. -/
theorem envStep_preserves (f : Option Str) (k v : Str)
    (hk : envLookup (f.getD []) k = some v) :
    envLookup ((envStep f).1.getD []) k = some v := by
  have hkmem : k ∈ (parseEnvPairs (f.getD [])).map (fun p => p.1) := by
    have h1 := lookupFirst_some_mem k (parseEnvPairs (f.getD [])).reverse v hk
    simpa [List.map_reverse] using h1
  have hsplit : ("\n# Added by Agent Engine Deployer Skill\n".data : Str)
      = '\n' :: "# Added by Agent Engine Deployer Skill\n".data := rfl
  by_cases h1 : "GOOGLE_CLOUD_AGENT_ENGINE_ENABLE_TELEMETRY".data ∈
      (parseEnvPairs (f.getD [])).map (fun p => p.1)
  · by_cases h2 : "OTEL_INSTRUMENTATION_GENAI_CAPTURE_MESSAGE_CONTENT".data ∈
        (parseEnvPairs (f.getD [])).map (fun p => p.1)
    · -- both present: no write
      have hnv : telemetry_vars.filter
          (fun p => !(((parseEnvPairs (f.getD [])).map (fun p => p.1)).contains
            p.1)) = [] := by
        simp [telemetry_vars, h1, h2]
      simp only [envStep, hnv]
      simpa using hk
    · -- only the second variable is appended
      rw [envStep_write_content f
        [("OTEL_INSTRUMENTATION_GENAI_CAPTURE_MESSAGE_CONTENT".data,
          "true".data)]
        (by simp [telemetry_vars, h1, h2]) (by simp), Option.getD_some,
        List.append_assoc, hsplit, List.cons_append]
      refine envLookup_append_preserved _ _ k v hk ?_
      intro p hp heq
      have hpr : parseEnvPairs
          ("# Added by Agent Engine Deployer Skill\n".data ++
            (List.map (fun p => p.1 ++ "=".data ++ p.2 ++ "\n".data)
              [("OTEL_INSTRUMENTATION_GENAI_CAPTURE_MESSAGE_CONTENT".data,
                "true".data)]).flatten) =
          [("OTEL_INSTRUMENTATION_GENAI_CAPTURE_MESSAGE_CONTENT".data,
            "true".data)] := by decide
      rw [hpr] at hp
      simp only [List.mem_singleton] at hp
      subst hp
      exact h2 (by rw [← heq] at hkmem; simpa using hkmem)
  · by_cases h2 : "OTEL_INSTRUMENTATION_GENAI_CAPTURE_MESSAGE_CONTENT".data ∈
        (parseEnvPairs (f.getD [])).map (fun p => p.1)
    · -- only the first variable is appended
      rw [envStep_write_content f
        [("GOOGLE_CLOUD_AGENT_ENGINE_ENABLE_TELEMETRY".data, "true".data)]
        (by simp [telemetry_vars, h1, h2]) (by simp), Option.getD_some,
        List.append_assoc, hsplit, List.cons_append]
      refine envLookup_append_preserved _ _ k v hk ?_
      intro p hp heq
      have hpr : parseEnvPairs
          ("# Added by Agent Engine Deployer Skill\n".data ++
            (List.map (fun p => p.1 ++ "=".data ++ p.2 ++ "\n".data)
              [("GOOGLE_CLOUD_AGENT_ENGINE_ENABLE_TELEMETRY".data,
                "true".data)]).flatten) =
          [("GOOGLE_CLOUD_AGENT_ENGINE_ENABLE_TELEMETRY".data,
            "true".data)] := by decide
      rw [hpr] at hp
      simp only [List.mem_singleton] at hp
      subst hp
      exact h1 (by rw [← heq] at hkmem; simpa using hkmem)
    · -- both variables are appended
      rw [envStep_write_content f
        [("GOOGLE_CLOUD_AGENT_ENGINE_ENABLE_TELEMETRY".data, "true".data),
         ("OTEL_INSTRUMENTATION_GENAI_CAPTURE_MESSAGE_CONTENT".data,
          "true".data)]
        (by simp [telemetry_vars, h1, h2]) (by simp), Option.getD_some,
        List.append_assoc, hsplit, List.cons_append]
      refine envLookup_append_preserved _ _ k v hk ?_
      intro p hp heq
      have hpr : parseEnvPairs
          ("# Added by Agent Engine Deployer Skill\n".data ++
            (List.map (fun p => p.1 ++ "=".data ++ p.2 ++ "\n".data)
              [("GOOGLE_CLOUD_AGENT_ENGINE_ENABLE_TELEMETRY".data,
                "true".data),
               ("OTEL_INSTRUMENTATION_GENAI_CAPTURE_MESSAGE_CONTENT".data,
                "true".data)]).flatten) =
          [("GOOGLE_CLOUD_AGENT_ENGINE_ENABLE_TELEMETRY".data, "true".data),
           ("OTEL_INSTRUMENTATION_GENAI_CAPTURE_MESSAGE_CONTENT".data,
            "true".data)] := by decide
      rw [hpr] at hp
      simp only [List.mem_cons, List.not_mem_nil, or_false] at hp
      rcases hp with hp | hp
      · subst hp
        exact h1 (by rw [← heq] at hkmem; simpa using hkmem)
      · subst hp
        exact h2 (by rw [← heq] at hkmem; simpa using hkmem)

/-- C7 -/
theorem c7_merge_steps_append_only (llm : List Str) (d : AgentDir) :
    (∃ s, (ignoreStep llm d.aeIgnore).1.getD [] = d.aeIgnore.getD [] ++ s) ∧
    (∃ s, (reqStep d.requirements).1.getD [] = d.requirements.getD [] ++ s) ∧
    (∃ s, (envStep d.envFile).1.getD [] = d.envFile.getD [] ++ s) ∧
    (∀ k v, envLookup (d.envFile.getD []) k = some v →
      envLookup ((envStep d.envFile).1.getD []) k = some v) := by
  refine ⟨?_, ?_, ?_, fun k v hk => envStep_preserves d.envFile k v hk⟩
  · simp only [ignoreStep]
    split
    · exact ⟨[], by simp⟩
    · simp only [Option.getD_some]
      exact append_shift4 _ _ _ _ _
  · simp only [reqStep]
    split
    · exact ⟨[], by simp⟩
    · simp only [Option.getD_some]
      exact append_shift3 _ _ _ _
  · simp only [envStep]
    split
    · exact ⟨[], by simp⟩
    · simp only [Option.getD_some]
      exact append_shift2 _ _ _

theorem c7_witness :
    (∃ s, (envStep (some "A=1\n".data)).1.getD []
      = (some "A=1\n".data : Option Str).getD [] ++ s) ∧
    envLookup ((envStep (some "A=1\n".data)).1.getD []) "A".data
      = some "1".data := by
  have h := c7_merge_steps_append_only [] ⟨none, none, some "A=1\n".data⟩
  exact ⟨h.2.2.1, h.2.2.2 "A".data "1".data (by decide)⟩

/-! ## Helper lemmas for the idempotence of the exclusion-file merge -/

/-- A good pattern on its own line parses to exactly itself. -/
theorem parse_single_good (e : Str) (h : goodPat e) :
    parseIgnoreEntries e = [e] := by
  obtain ⟨hs, hne, hh, hn⟩ := h
  simp only [parseIgnoreEntries, splitNl_no_nl e hn, List.filter_cons,
    List.filter_nil, hs, hh]
  have : (strip e).isEmpty = false := by
    rw [hs]
    cases e with
    | nil => exact absurd rfl hne
    | cons a l => rfl
  rw [hs] at this
  simp [this, hs]

/-- The block of appended pattern lines parses back to exactly the list of
patterns. -/
theorem parse_items : ∀ L : List Str, (∀ e ∈ L, goodPat e) →
    parseIgnoreEntries ((L.map (fun i => i ++ "\n".data)).flatten) = L
  | [], _ => by decide
  | e :: L, h => by
    have he : goodPat e := h e (List.mem_cons_self e L)
    have hL : ∀ x ∈ L, goodPat x := fun x hx => h x (List.mem_cons_of_mem e hx)
    have hflat : ((e :: L).map (fun i => i ++ "\n".data)).flatten
        = e ++ '\n' :: (L.map (fun i => i ++ "\n".data)).flatten := by
      simp [List.append_assoc]
    rw [hflat, parseIgnoreEntries_append, parse_single_good e he,
      parse_items L hL]
    rfl

/-- The appended comment header contributes no entries. -/
theorem parse_header : parseIgnoreEntries addedHeaderLine = [] := by decide

/-- Membership in an insertion step. -/
theorem mem_insertSorted (a x : Str) : ∀ l : List Str,
    a ∈ insertSorted x l ↔ a = x ∨ a ∈ l
  | [] => by simp [insertSorted]
  | y :: rest => by
    simp only [insertSorted]
    by_cases h : pyLe x y
    · simp [h]
    · rw [if_neg h]
      simp only [List.mem_cons, mem_insertSorted a x rest]
      tauto

/-- Sorting preserves membership. -/
theorem mem_sortStrs (a : Str) : ∀ l : List Str, a ∈ sortStrs l ↔ a ∈ l
  | [] => Iff.rfl
  | x :: rest => by
    simp only [sortStrs, mem_insertSorted, mem_sortStrs a rest, List.mem_cons]

/-- Every baseline pattern is a good pattern. -/
theorem baseline_good : ∀ e ∈ baseline_ignores, goodPat e := by decide

/-- When every required pattern already parses out of the file, the merge
step writes nothing. -/
theorem ignoreStep_of_subset (llm : List Str) (c : Str)
    (h : ∀ e ∈ baseline_ignores ++ llm, e ∈ parseIgnoreEntries c) :
    ignoreStep llm (some c) = (some c, false) := by
  have hnil : ((baseline_ignores ++ llm).filter
      (fun e => !((currentIgnores (some c)).contains e))).dedup = [] := by
    rw [List.dedup_eq_nil, List.filter_eq_nil_iff]
    intro a ha
    simp [currentIgnores, h a ha]
  simp only [ignoreStep, hnil, eq_self_iff_true, if_true]

/-- The write branch of the exclusion merge step, explicitly. -/
theorem ignoreStep_write (llm : List Str) (f : Option Str)
    (hm : ¬ ((baseline_ignores ++ llm).filter
      (fun e => !((currentIgnores f).contains e))).dedup = []) :
    ignoreStep llm f =
      (some (((f.getD [] ++
          (if currentIgnores f = [] then [] else "\n".data)) ++
          addedHeaderLine) ++ '\n' ::
          ((sortStrs (((baseline_ignores ++ llm).filter
            (fun e => !((currentIgnores f).contains e))).dedup)).map
            (fun i => i ++ "\n".data)).flatten), true) := by
  simp only [ignoreStep, if_neg hm]
  simp [List.append_assoc]

/-- C4 amended -/
theorem c4_idempotent_for_clean_suggestions (llm : List Str) (f : Option Str)
    (hg : ∀ e ∈ llm, goodPat e) :
    ignoreStep llm (ignoreStep llm f).1 = ((ignoreStep llm f).1, false) := by
  have hfinal_good : ∀ e ∈ baseline_ignores ++ llm, goodPat e := by
    intro e he
    rcases List.mem_append.mp he with hb | hl
    · exact baseline_good e hb
    · exact hg e hl
  by_cases hm : ((baseline_ignores ++ llm).filter
      (fun e => !((currentIgnores f).contains e))).dedup = []
  · have h1 : ignoreStep llm f = (f, false) := by
      simp only [ignoreStep, hm, eq_self_iff_true, if_true]
    rw [h1]
    exact h1
  · rw [ignoreStep_write llm f hm]
    have hMgood : ∀ x ∈ sortStrs (((baseline_ignores ++ llm).filter
        (fun e => !((currentIgnores f).contains e))).dedup), goodPat x := by
      intro x hx
      have hx2 := (mem_sortStrs x _).mp hx
      rw [List.mem_dedup] at hx2
      exact hfinal_good x (List.mem_filter.mp hx2).1
    apply ignoreStep_of_subset
    intro e he
    rw [parseIgnoreEntries_append, List.mem_append,
      parse_items _ hMgood]
    by_cases hem : e ∈ ((baseline_ignores ++ llm).filter
        (fun q => !((currentIgnores f).contains q))).dedup
    · exact Or.inr ((mem_sortStrs e _).mpr hem)
    · -- the pattern was already an entry of the old file
      have hcur : e ∈ currentIgnores f := by
        rw [List.mem_dedup, List.mem_filter] at hem
        by_contra hnc
        apply hem
        refine ⟨he, ?_⟩
        simp only [Bool.not_eq_true']
        simpa using hnc
      match hf : f with
      | none => simp [currentIgnores] at hcur
      | some c =>
        have hcne : ¬ currentIgnores (some c) = [] := by
          intro hnil
          rw [hnil] at hcur
          simp at hcur
        left
        simp only [Option.getD_some, if_neg hcne]
        have hshape : ((c ++ "\n".data) ++ addedHeaderLine : Str)
            = c ++ '\n' :: addedHeaderLine := by
          simp [List.append_assoc]
        rw [hshape, parseIgnoreEntries_append, List.mem_append]
        left
        simpa [currentIgnores] using hcur

theorem c4_idempotent_for_clean_suggestions_witness :
    ignoreStep ["extra".data] (ignoreStep ["extra".data] none).1
      = ((ignoreStep ["extra".data] none).1, false) :=
  c4_idempotent_for_clean_suggestions ["extra".data] none (by decide)
